import Mathlib

/-!
Verification of the room/connection registry and broadcast engine of the
`server_chat` repository.  The embedding below follows `src/server_test.py`,
the most complete variant of the server (the specification states that it
follows the most complete/last variant); comments cite line numbers of that
file.  Connections (Python `websocket` objects, used as dictionary keys) are
modelled as natural-number identities.  Python dictionaries are modelled as
insertion-ordered association lists with first-match lookup, Python sets as
`Finset`.
-/

namespace ServerChat

/-- A connection identity (stands for one Python `websocket` object). -/
abbrev Conn := Nat

/-! ### Python dictionary primitives (insertion-ordered association lists) -/

/-- `d[k]` lookup, `none` when the key is absent (`dict.get`). -/
def dictLookup {α β : Type} [DecidableEq α] (d : List (α × β)) (k : α) : Option β :=
  match d with
  | [] => none
  | (k0, v) :: rest => if k0 = k then some v else dictLookup rest k

/-- `d[k] = v` assignment: update in place when present, append when absent. -/
def dictSet {α β : Type} [DecidableEq α] (d : List (α × β)) (k : α) (v : β) :
    List (α × β) :=
  match d with
  | [] => [(k, v)]
  | (k0, v0) :: rest => if k0 = k then (k0, v) :: rest else (k0, v0) :: dictSet rest k v

/-- In-place mutation of the value stored at `k` (such as `d[k].add(x)` or
`d.get(k, set()).discard(x)`); a no-op when the key is absent, which matches
the Python `d.get(k, set())` idiom mutating a temporary set. -/
def dictModify {α β : Type} [DecidableEq α] (d : List (α × β)) (k : α) (f : β → β) :
    List (α × β) :=
  match d with
  | [] => []
  | (k0, v0) :: rest => if k0 = k then (k0, f v0) :: rest else (k0, v0) :: dictModify rest k f

/-- `del d[k]` / `d.pop(k, None)`: removes the binding for `k`. -/
def dictErase {α β : Type} [DecidableEq α] (d : List (α × β)) (k : α) : List (α × β) :=
  match d with
  | [] => []
  | (k0, v0) :: rest => if k0 = k then dictErase rest k else (k0, v0) :: dictErase rest k

/-! ### Protocol data -/

/-- Decoded inbound actions (`action.get("action")` together with the fields
each handler reads, lines 159-285).  `Option String` fields model
`action.get(...)`, which yields `None` when the field is absent.  The
`identify` field models `action.get("payload", \x7b\x7d).get("username", "")`,
which always yields a string, defaulting to `""`. -/
inductive Action : Type
  | createRoom (room : Option String)
  | joinRoom (room : Option String)
  | leaveRoom (room : Option String)
  | deleteRoom (room : Option String)
  | sendMessage (message : Option String) (room : Option String)
  | identify (username : String)
  | rename (newUsername : Option String)
  | roomsList
  | unknown
deriving DecidableEq

/-- Outbound events (the JSON objects passed to `sendjson` / `websocket.send`).
`message` carries the wire fields `from`, `room`, `message` (the first is named
`sender` here because `from` is reserved in Lean).  `errorMessage` is the
`joinRoom` error shape `\x7b"action": "error", "message": ...\x7d`;
`error` is the `reason`/`detail` shape used by the other handlers. -/
inductive Event : Type
  | roomsList (counts : List (String × Nat))
  | joined (room : String)
  | left (room : String)
  | message (sender room text : String)
  | errorMessage (message : String)
  | error (reason detail : String)
deriving DecidableEq, Repr

/-- An inbound frame before JSON decoding: either a decoded action or a frame
on which `json.loads` raises (line 156 has no try/except around it). -/
inductive Frame : Type
  | parsed (a : Action)
  | malformed
deriving DecidableEq

/-- The global mutable server state (module-level variables, lines 27-31;
`typing_users` is declared but never used and is omitted). -/
structure ServerState : Type where
  /-- `connected_clients`: set of all connected clients (line 27). -/
  connected_clients : Finset Conn
  /-- `rooms`: maps room name to the set of clients in that room (line 28). -/
  rooms : List (String × Finset Conn)
  /-- `client_rooms`: maps client to the set of rooms it has joined (line 29). -/
  client_rooms : List (Conn × Finset String)
  /-- `users`: maps client to username (line 30). -/
  users : List (Conn × String)
deriving DecidableEq

/-- The state at interpreter startup: no clients, the single room `"default"`
with empty membership (line 28). -/
def initState : ServerState :=
  { connected_clients := ∅
    rooms := [("default", ∅)]
    client_rooms := []
    users := [] }

/-- `get_rooms_with_counts()` (lines 106-116): maps each room name to its
user count, in dictionary (insertion) order. -/
def get_rooms_with_counts (st : ServerState) : List (String × Nat) :=
  st.rooms.map (fun p => (p.1, p.2.card))

/-- The recipients of a `for client in connected_clients` loop.  Python set
iteration order is arbitrary; we fix the ascending order of identities. -/
def connectedList (st : ServerState) : List Conn :=
  st.connected_clients.sort (· ≤ ·)

/-- Broadcast of the occupancy snapshot to every connected client
(`for client in connected_clients: await sendjson(client, \x7b"action":
"roomsList", "rooms": get_rooms_with_counts()\x7d)`). -/
def broadcastRoomsList (st : ServerState) : List (Conn × Event) :=
  (connectedList st).map (fun c => (c, Event.roomsList (get_rooms_with_counts st)))

/-- Python truthiness of an optional string (`if room`, `if msg`, ...):
`None` and `""` are falsy. -/
def truthy : Option String → Bool
  | none => false
  | some s => !s.isEmpty

/-- String interpolation of an optional value, as Python renders `None`. -/
def optStr : Option String → String
  | none => "None"
  | some s => s

/-! ### Registration (lines 135-153) -/

/-- Registration of a new client at the top of `handle_client` (lines
135-153): add to `connected_clients`, assign the generated placeholder
username (passed in as `uname`, standing for the timestamp-based name of line
141), auto-join `"default"`, initialise `client_rooms`, and send the initial
occupancy snapshot to the new client. -/
def registerClient (st : ServerState) (ws : Conn) (uname : String) :
    ServerState × List (Conn × Event) :=
  let st1 : ServerState :=
    { connected_clients := insert ws st.connected_clients
      rooms := dictModify st.rooms "default" (fun m => insert ws m)
      client_rooms := dictSet st.client_rooms ws {"default"}
      users := dictSet st.users ws uname }
  (st1, [(ws, Event.roomsList (get_rooms_with_counts st1))])

/-! ### The dispatcher (lines 158-285) -/

/-- Body of the `for client in list(rooms[room])` loop of `deleteRoom`
(lines 226-234): move one member into `"default"` and fix its
`client_rooms` entry (`rooms["default"].add(client)`;
`client_rooms.get(client, set()).discard(room)`;
`client_rooms.get(client, set()).add("default")`). -/
def migrateOne (room : String) (s : ServerState) (c : Conn) : ServerState :=
  { s with
    rooms := dictModify s.rooms "default" (fun m => insert c m)
    client_rooms :=
      dictModify (dictModify s.client_rooms c (fun r => r.erase room)) c
        (fun r => insert "default" r) }

/-- Dispatch of one decoded action from connection `ws` (the `match
action.get("action")` of lines 159-285).  Returns the new global state and
the list of `(recipient, event)` sends, in program order.  Interpolated
error details keep the source text with the quote characters around the room
name omitted. -/
def handleAction (st : ServerState) (ws : Conn) : Action → ServerState × List (Conn × Event)
  | Action.createRoom oroom =>
      -- lines 160-167: `if room and room not in rooms`
      match oroom with
      | none => (st, [])
      | some room =>
          if !room.isEmpty ∧ dictLookup st.rooms room = none then
            let st1 := { st with rooms := dictSet st.rooms room ∅ }
            (st1, broadcastRoomsList st1)
          else (st, [])
  | Action.joinRoom oroom =>
      -- lines 169-188: `if room not in rooms` (a `None` room is never a key)
      match oroom with
      | none =>
          (st, [(ws, Event.errorMessage (s!"Room {optStr none} does not exist."))])
      | some room =>
          match dictLookup st.rooms room with
          | none => (st, [(ws, Event.errorMessage (s!"Room {room} does not exist."))])
          | some _ =>
              let st1 : ServerState :=
                { st with
                  rooms := dictModify st.rooms room (fun m => insert ws m)
                  client_rooms :=
                    dictSet st.client_rooms ws
                      (insert room ((dictLookup st.client_rooms ws).getD ∅)) }
              (st1, (ws, Event.joined room) :: broadcastRoomsList st1)
  | Action.leaveRoom oroom =>
      -- lines 190-215
      if truthy oroom = false then
        (st, [(ws, Event.error "no_room_specified" "No room specified to leave.")])
      else
        let room := optStr oroom
        if room = "default" then
          (st, [(ws, Event.error "cannot_leave_default" "Cannot leave the default room.")])
        else
          -- `if room in rooms and websocket in rooms[room]` (lines 201-206)
          let st1 : ServerState :=
            match dictLookup st.rooms room with
            | some m =>
                if ws ∈ m then
                  { st with
                    rooms := dictModify st.rooms room (fun s => s.erase ws)
                    client_rooms :=
                      dictModify (dictModify st.client_rooms ws (fun s => s.erase room)) ws
                        (fun s => insert "default" s) }
                else st
            | none => st
          -- the `left` event and the broadcast are sent unconditionally (208-215)
          (st1, (ws, Event.left room) :: broadcastRoomsList st1)
  | Action.deleteRoom oroom =>
      -- lines 217-244
      if oroom = some "default" then
        (st, [(ws, Event.error "cannot_delete_default" "Cannot delete the default room.")])
      else
        match oroom with
        | none =>
            (st, [(ws, Event.error "room_not_found" (s!"Room {optStr none} does not exist."))])
        | some room =>
            match dictLookup st.rooms room with
            | some mem =>
                if room.isEmpty then
                  (st, [(ws, Event.error "room_not_found" (s!"Room {room} does not exist."))])
                else
                  -- `for client in list(rooms[room])` (set order fixed as ascending)
                  let members := mem.sort (· ≤ ·)
                  let st1 := members.foldl (migrateOne room) st
                  let st2 := { st1 with rooms := dictErase st1.rooms room }
                  (st2,
                    members.map (fun c => (c, Event.left room)) ++ broadcastRoomsList st2)
            | none =>
                (st, [(ws, Event.error "room_not_found" (s!"Room {room} does not exist."))])
  | Action.sendMessage omsg oroom =>
      -- lines 246-267: `if not msg or not room: continue`
      if truthy omsg = false ∨ truthy oroom = false then (st, [])
      else
        let msg := optStr omsg
        let room := optStr oroom
        match dictLookup st.rooms room with
        | none => (st, [(ws, Event.error "room_not_found" (s!"Room {room} does not exist."))])
        | some mem =>
            -- no state mutation; one send per member of the target room
            (st,
              (mem.sort (· ≤ ·)).map (fun c =>
                (c, Event.message ((dictLookup st.users ws).getD "Unknown") room msg)))
  | Action.identify username =>
      -- lines 269-273: `if username: users[websocket] = username`
      if !username.isEmpty then
        ({ st with users := dictSet st.users ws username }, [])
      else (st, [])
  | Action.rename oname =>
      -- lines 275-278
      if truthy oname then
        ({ st with users := dictSet st.users ws (optStr oname) }, [])
      else (st, [])
  | Action.roomsList =>
      -- lines 280-281
      (st, [(ws, Event.roomsList (get_rooms_with_counts st))])
  | Action.unknown =>
      -- lines 283-285: logged, ignored
      (st, [])

/-! ### Disconnect cleanup (lines 291-310) -/

/-- The `finally` block of `handle_client` (lines 291-310): remove the client
from every room recorded in its `client_rooms` entry (each removal wrapped in
`try/except pass`), drop the `client_rooms` entry, broadcast the updated
occupancy to all still-connected clients (the leaving client included, since
`connected_clients.remove` runs last), and unregister from
`connected_clients`.  Note that the `users` entry is not removed. -/
def disconnectCleanup (st : ServerState) (ws : Conn) :
    ServerState × List (Conn × Event) :=
  let rset := ((dictLookup st.client_rooms ws).getD ∅).sort (· ≤ ·)
  let rooms1 := rset.foldl (fun rs r => dictModify rs r (fun m => m.erase ws)) st.rooms
  let st1 : ServerState :=
    { st with rooms := rooms1, client_rooms := dictErase st.client_rooms ws }
  let evs := broadcastRoomsList st1
  ({ st1 with connected_clients := st1.connected_clients.erase ws }, evs)

/-- One iteration of the `async for raw in websocket` loop (lines 155-156)
for one inbound frame.  A parseable frame is dispatched and the loop
continues.  On a frame `json.loads` cannot parse, the exception propagates
out of the loop (line 156 is not guarded), is logged by the outer handler
(lines 287-288), and the `finally` cleanup runs: the session ends.  The
`Bool` records whether the session continues. -/
def handleFrame (st : ServerState) (ws : Conn) :
    Frame → ServerState × List (Conn × Event) × Bool
  | Frame.parsed a =>
      let p := handleAction st ws a
      (p.1, p.2, true)
  | Frame.malformed =>
      let p := disconnectCleanup st ws
      (p.1, p.2, false)

/-! ### Reachable states -/

/-- The states the server can reach: starting from `initState`, any
interleaving of client registrations (each with a fresh connection object),
decoded actions from registered clients, and disconnect cleanups.  The
specification assumes the serialization discipline of one mutation at a
time, which these atomic steps model. -/
inductive Reachable : ServerState → Prop
  | init : Reachable initState
  | connect {st : ServerState} {ws : Conn} {uname : String} :
      Reachable st → ws ∉ st.connected_clients →
      Reachable (registerClient st ws uname).1
  | act {st : ServerState} {ws : Conn} {a : Action} :
      Reachable st → ws ∈ st.connected_clients →
      Reachable (handleAction st ws a).1
  | disconnect {st : ServerState} {ws : Conn} :
      Reachable st → ws ∈ st.connected_clients →
      Reachable (disconnectCleanup st ws).1

/-- The state invariant maintained by every server operation. -/
structure Inv (st : ServerState) : Prop where
  /-- The room `"default"` is always present in the directory. -/
  default_exists : (dictLookup st.rooms "default").isSome
  /-- Every connected client is a member of `"default"`. -/
  connected_in_default :
    ∀ c ∈ st.connected_clients, c ∈ (dictLookup st.rooms "default").getD ∅
  /-- Room names are unique keys. -/
  rooms_nodup : (st.rooms.map Prod.fst).Nodup
  /-- Every room member is a connected client. -/
  members_connected :
    ∀ c r m, dictLookup st.rooms r = some m → c ∈ m → c ∈ st.connected_clients
  /-- Every room membership is recorded in the member's `client_rooms` set. -/
  member_tracked :
    ∀ c r m, dictLookup st.rooms r = some m → c ∈ m →
      ∃ s, dictLookup st.client_rooms c = some s ∧ r ∈ s

/-! ### Lemmas about the dictionary primitives -/

theorem dictLookup_dictSet_self {α β : Type} [DecidableEq α] (d : List (α × β)) (k : α)
    (v : β) : dictLookup (dictSet d k v) k = some v := by
  induction d with
  | nil => simp [dictSet, dictLookup]
  | cons p rest ih =>
      obtain ⟨k0, v0⟩ := p
      by_cases h : k0 = k <;> simp [dictSet, dictLookup, h, ih]

theorem dictLookup_dictSet_ne {α β : Type} [DecidableEq α] (d : List (α × β)) {k k1 : α}
    (v : β) (h : k1 ≠ k) : dictLookup (dictSet d k v) k1 = dictLookup d k1 := by
  induction d with
  | nil => simp [dictSet, dictLookup, Ne.symm h]
  | cons p rest ih =>
      obtain ⟨k0, v0⟩ := p
      by_cases h0 : k0 = k
      · subst h0
        simp [dictSet, dictLookup, Ne.symm h]
      · simp [dictSet, dictLookup, h0, ih]

theorem dictLookup_dictModify_self {α β : Type} [DecidableEq α] (d : List (α × β)) (k : α)
    (f : β → β) : dictLookup (dictModify d k f) k = (dictLookup d k).map f := by
  induction d with
  | nil => simp [dictModify, dictLookup]
  | cons p rest ih =>
      obtain ⟨k0, v0⟩ := p
      by_cases h : k0 = k <;> simp [dictModify, dictLookup, h, ih]

theorem dictLookup_dictModify_ne {α β : Type} [DecidableEq α] (d : List (α × β)) {k k1 : α}
    (f : β → β) (h : k1 ≠ k) : dictLookup (dictModify d k f) k1 = dictLookup d k1 := by
  induction d with
  | nil => simp [dictModify]
  | cons p rest ih =>
      obtain ⟨k0, v0⟩ := p
      by_cases h0 : k0 = k
      · subst h0
        simp [dictModify, dictLookup, Ne.symm h]
      · simp [dictModify, dictLookup, h0, ih]

theorem dictLookup_dictErase_self {α β : Type} [DecidableEq α] (d : List (α × β)) (k : α) :
    dictLookup (dictErase d k) k = none := by
  induction d with
  | nil => simp [dictErase, dictLookup]
  | cons p rest ih =>
      obtain ⟨k0, v0⟩ := p
      by_cases h : k0 = k <;> simp [dictErase, dictLookup, h, ih]

theorem dictLookup_dictErase_ne {α β : Type} [DecidableEq α] (d : List (α × β)) {k k1 : α}
    (h : k1 ≠ k) : dictLookup (dictErase d k) k1 = dictLookup d k1 := by
  induction d with
  | nil => simp [dictErase]
  | cons p rest ih =>
      obtain ⟨k0, v0⟩ := p
      by_cases h0 : k0 = k
      · subst h0
        simp [dictErase, dictLookup, Ne.symm h, ih]
      · simp [dictErase, dictLookup, h0, ih]

theorem dictModify_map_fst {α β : Type} [DecidableEq α] (d : List (α × β)) (k : α)
    (f : β → β) : (dictModify d k f).map Prod.fst = d.map Prod.fst := by
  induction d with
  | nil => simp [dictModify]
  | cons p rest ih =>
      obtain ⟨k0, v0⟩ := p
      by_cases h : k0 = k <;> simp [dictModify, h, ih]

theorem dictLookup_eq_none_iff {α β : Type} [DecidableEq α] (d : List (α × β)) (k : α) :
    dictLookup d k = none ↔ k ∉ d.map Prod.fst := by
  induction d with
  | nil => simp [dictLookup]
  | cons p rest ih =>
      obtain ⟨k0, v0⟩ := p
      by_cases h : k0 = k
      · subst h
        simp [dictLookup]
      · simp [dictLookup, h, ih, Ne.symm h]

theorem dictSet_map_fst_of_absent {α β : Type} [DecidableEq α] (d : List (α × β)) {k : α}
    (v : β) (h : dictLookup d k = none) :
    (dictSet d k v).map Prod.fst = d.map Prod.fst ++ [k] := by
  induction d with
  | nil => simp [dictSet]
  | cons p rest ih =>
      obtain ⟨k0, v0⟩ := p
      by_cases h0 : k0 = k
      · simp [dictLookup, h0] at h
      · simp [dictLookup, h0] at h
        simp [dictSet, h0, ih h]

theorem dictErase_sublist {α β : Type} [DecidableEq α] (d : List (α × β)) (k : α) :
    (dictErase d k).Sublist d := by
  induction d with
  | nil => simp [dictErase]
  | cons p rest ih =>
      obtain ⟨k0, v0⟩ := p
      by_cases h : k0 = k
      · simpa [dictErase, h] using ih.trans (List.sublist_cons_self _ _)
      · simpa [dictErase, h] using ih

/-! ### Lemmas about the loops -/

/-- Removing a client from a list of rooms (the cleanup loop) acts pointwise:
the member set of a room in the list loses the client, others are unchanged. -/
theorem dictLookup_foldl_erase (l : List String) (d : List (String × Finset Conn))
    (ws : Conn) (r : String) :
    dictLookup (l.foldl (fun rs x => dictModify rs x (fun m => m.erase ws)) d) r
      = if r ∈ l then (dictLookup d r).map (fun m => m.erase ws) else dictLookup d r := by
  induction l generalizing d with
  | nil => simp
  | cons x l ih =>
      simp only [List.foldl_cons]
      rw [ih]
      by_cases hx : r = x
      · subst hx
        by_cases hl : r ∈ l
        · simp only [hl, if_true, dictLookup_dictModify_self, Option.map_map,
            List.mem_cons, true_or]
          congr 1
          funext m
          simp [Finset.erase_idem]
        · simp [hl, dictLookup_dictModify_self]
      · simp only [dictLookup_dictModify_ne d (fun m => m.erase ws) hx]
        simp [List.mem_cons, hx]

/-- The cleanup loop never changes the key list of `rooms`. -/
theorem foldl_erase_map_fst (l : List String) (d : List (String × Finset Conn))
    (ws : Conn) :
    (l.foldl (fun rs x => dictModify rs x (fun m => m.erase ws)) d).map Prod.fst
      = d.map Prod.fst := by
  induction l generalizing d with
  | nil => simp
  | cons x l ih => simp [ih, dictModify_map_fst]

/-- The migration loop never changes the key list of `rooms`. -/
theorem foldl_insert_map_fst (l : List Conn) (d : List (String × Finset Conn)) :
    (l.foldl (fun rs c => dictModify rs "default" (fun m => insert c m)) d).map Prod.fst
      = d.map Prod.fst := by
  induction l generalizing d with
  | nil => simp
  | cons x l ih => simp [ih, dictModify_map_fst]

theorem mem_foldl_insert (l : List Conn) (m : Finset Conn) (a : Conn) :
    a ∈ l.foldl (fun acc c => insert c acc) m ↔ a ∈ m ∨ a ∈ l := by
  induction l generalizing m with
  | nil => simp
  | cons x l ih =>
      simp [ih, Finset.mem_insert]
      tauto

/-- The migration loop of `deleteRoom` does not touch `connected_clients`. -/
theorem migrate_fold_connected (l : List Conn) (room : String) (st : ServerState) :
    (l.foldl (migrateOne room) st).connected_clients = st.connected_clients := by
  induction l generalizing st with
  | nil => simp
  | cons x l ih => simp [ih, migrateOne]

/-- The migration loop of `deleteRoom` does not touch `users`. -/
theorem migrate_fold_users (l : List Conn) (room : String) (st : ServerState) :
    (l.foldl (migrateOne room) st).users = st.users := by
  induction l generalizing st with
  | nil => simp
  | cons x l ih => simp [ih, migrateOne]

/-- The `rooms` component after the migration loop: the `"default"` member
set accumulates the migrated members. -/
theorem migrate_fold_rooms (l : List Conn) (room : String) (st : ServerState) :
    (l.foldl (migrateOne room) st).rooms
      = l.foldl (fun rs c => dictModify rs "default" (fun m => insert c m)) st.rooms := by
  induction l generalizing st with
  | nil => simp
  | cons x l ih => simp [ih, migrateOne]

/-- The `client_rooms` component after the migration loop. -/
theorem migrate_fold_client_rooms (l : List Conn) (room : String) (st : ServerState) :
    (l.foldl (migrateOne room) st).client_rooms
      = l.foldl (fun cr c =>
          dictModify (dictModify cr c (fun r => r.erase room)) c
            (fun r => insert "default" r)) st.client_rooms := by
  induction l generalizing st with
  | nil => simp
  | cons x l ih => simp [ih, migrateOne]

/-- Looking up `"default"` after the accumulating fold of the migration loop. -/
theorem dictLookup_foldl_insert (l : List Conn) (d : List (String × Finset Conn)) :
    dictLookup (l.foldl (fun rs c => dictModify rs "default" (fun m => insert c m)) d)
        "default"
      = (dictLookup d "default").map (fun m => l.foldl (fun acc c => insert c acc) m) := by
  induction l generalizing d with
  | nil => simp [Option.map_id]
  | cons x l ih =>
      simp only [List.foldl_cons]
      rw [ih, dictLookup_dictModify_self, Option.map_map]
      rfl

/-- The accumulating fold of the migration loop leaves other rooms alone. -/
theorem dictLookup_foldl_insert_ne (l : List Conn) (d : List (String × Finset Conn))
    {r : String} (h : r ≠ "default") :
    dictLookup (l.foldl (fun rs c => dictModify rs "default" (fun m => insert c m)) d) r
      = dictLookup d r := by
  induction l generalizing d with
  | nil => simp
  | cons x l ih =>
      simp only [List.foldl_cons]
      rw [ih, dictLookup_dictModify_ne d (fun m => insert x m) h]

/-- The `client_rooms` entry of a client outside the migration loop is
untouched. -/
theorem dictLookup_migrate_cr_not_mem (l : List Conn) (room : String)
    (cr : List (Conn × Finset String)) {c : Conn} (hc : c ∉ l) :
    dictLookup
        (l.foldl (fun a x =>
          dictModify (dictModify a x (fun r => r.erase room)) x
            (fun r => insert "default" r)) cr) c
      = dictLookup cr c := by
  induction l generalizing cr with
  | nil => simp
  | cons x l ih =>
      simp only [List.mem_cons, not_or] at hc
      simp only [List.foldl_cons]
      rw [ih _ hc.2, dictLookup_dictModify_ne _ _ hc.1,
        dictLookup_dictModify_ne _ _ hc.1]

/-- The `client_rooms` entry of a migrated member: the deleted room is
discarded and `"default"` is added. -/
theorem dictLookup_migrate_cr_mem (l : List Conn) (room : String)
    (cr : List (Conn × Finset String)) {c : Conn} (hnd : l.Nodup) (hc : c ∈ l) :
    dictLookup
        (l.foldl (fun a x =>
          dictModify (dictModify a x (fun r => r.erase room)) x
            (fun r => insert "default" r)) cr) c
      = (dictLookup cr c).map (fun s => insert "default" (s.erase room)) := by
  induction l generalizing cr with
  | nil => simp at hc
  | cons x l ih =>
      simp only [List.foldl_cons]
      rcases List.mem_cons.mp hc with hcx | hcl
      · subst hcx
        have hnl : c ∉ l := (List.nodup_cons.mp hnd).1
        rw [dictLookup_migrate_cr_not_mem l room _ hnl,
          dictLookup_dictModify_self, dictLookup_dictModify_self, Option.map_map]
        rfl
      · have hcx : c ≠ x := fun he => (List.nodup_cons.mp hnd).1 (he ▸ hcl)
        rw [ih _ (List.nodup_cons.mp hnd).2 hcl,
          dictLookup_dictModify_ne _ _ hcx, dictLookup_dictModify_ne _ _ hcx]

/-! ### Preservation of the invariant -/

theorem inv_initState : Inv initState := by
  refine ⟨?_, ?_, ?_, ?_, ?_⟩
  · simp [initState, dictLookup]
  · intro c hc
    simp [initState] at hc
  · simp [initState]
  · intro c r m hm hc
    simp [initState, dictLookup] at hm
    rw [← hm.2] at hc
    simp at hc
  · intro c r m hm hc
    simp [initState, dictLookup] at hm
    rw [← hm.2] at hc
    simp at hc

theorem inv_registerClient {st : ServerState} {ws : Conn} (uname : String)
    (hInv : Inv st) (hws : ws ∉ st.connected_clients) :
    Inv (registerClient st ws uname).1 := by
  obtain ⟨D, hD⟩ := Option.isSome_iff_exists.mp hInv.default_exists
  refine ⟨?_, ?_, ?_, ?_, ?_⟩
  · -- default_exists
    simp [registerClient, dictLookup_dictModify_self, hD]
  · -- connected_in_default
    intro c hc
    simp only [registerClient, Finset.mem_insert] at hc ⊢
    rw [dictLookup_dictModify_self, hD]
    rcases hc with hc | hc
    · simp [hc]
    · exact Finset.mem_insert_of_mem (by simpa [hD] using hInv.connected_in_default c hc)
  · -- rooms_nodup
    simpa [registerClient, dictModify_map_fst] using hInv.rooms_nodup
  · -- members_connected
    intro c r m hm hc
    simp only [registerClient] at hm ⊢
    by_cases hr : r = "default"
    · subst hr
      rw [dictLookup_dictModify_self, hD] at hm
      cases hm
      rcases Finset.mem_insert.mp hc with hc | hc
      · simp [hc]
      · exact Finset.mem_insert_of_mem
          (hInv.members_connected c "default" D hD hc)
    · rw [dictLookup_dictModify_ne _ _ hr] at hm
      exact Finset.mem_insert_of_mem (hInv.members_connected c r m hm hc)
  · -- member_tracked
    intro c r m hm hc
    simp only [registerClient] at hm ⊢
    by_cases hr : r = "default"
    · subst hr
      rw [dictLookup_dictModify_self, hD] at hm
      cases hm
      rcases Finset.mem_insert.mp hc with hc | hc
      · subst hc
        exact ⟨{"default"}, dictLookup_dictSet_self st.client_rooms c _, by simp⟩
      · have hcws : c ≠ ws := fun he =>
          hws (he ▸ hInv.members_connected c "default" D hD hc)
        obtain ⟨s, hs, hrs⟩ := hInv.member_tracked c "default" D hD hc
        exact ⟨s, by rw [dictLookup_dictSet_ne _ _ hcws]; exact hs, hrs⟩
    · rw [dictLookup_dictModify_ne _ _ hr] at hm
      have hcws : c ≠ ws := fun he =>
        hws (he ▸ hInv.members_connected c r m hm hc)
      obtain ⟨s, hs, hrs⟩ := hInv.member_tracked c r m hm hc
      exact ⟨s, by rw [dictLookup_dictSet_ne _ _ hcws]; exact hs, hrs⟩

/-! ### Properties of the disconnect cleanup -/

theorem cleanup_rooms_lookup (st : ServerState) (ws : Conn) (r : String) :
    dictLookup (disconnectCleanup st ws).1.rooms r
      = if r ∈ (dictLookup st.client_rooms ws).getD ∅ then
          (dictLookup st.rooms r).map (fun m => m.erase ws)
        else dictLookup st.rooms r := by
  show dictLookup (((dictLookup st.client_rooms ws).getD ∅).sort (· ≤ ·) |>.foldl
      (fun rs r => dictModify rs r (fun m => m.erase ws)) st.rooms) r = _
  rw [dictLookup_foldl_erase]
  simp [Finset.mem_sort]

theorem cleanup_connected (st : ServerState) (ws : Conn) :
    (disconnectCleanup st ws).1.connected_clients = st.connected_clients.erase ws := rfl

theorem cleanup_users (st : ServerState) (ws : Conn) :
    (disconnectCleanup st ws).1.users = st.users := rfl

theorem cleanup_client_rooms (st : ServerState) (ws : Conn) :
    (disconnectCleanup st ws).1.client_rooms = dictErase st.client_rooms ws := rfl

/-- After cleanup the disconnected client is a member of no room: its
`client_rooms` entry covered all its memberships. -/
theorem cleanup_ws_not_member {st : ServerState} (hInv : Inv st) (ws : Conn) :
    ∀ r m, dictLookup (disconnectCleanup st ws).1.rooms r = some m → ws ∉ m := by
  intro r m hm hws
  rw [cleanup_rooms_lookup] at hm
  by_cases hr : r ∈ (dictLookup st.client_rooms ws).getD ∅
  · rw [if_pos hr] at hm
    obtain ⟨m0, hm0, he⟩ := Option.map_eq_some'.mp hm
    rw [← he] at hws
    exact (Finset.mem_erase.mp hws).1 rfl
  · rw [if_neg hr] at hm
    obtain ⟨s, hs, hrs⟩ := hInv.member_tracked ws r m hm hws
    rw [hs] at hr
    exact hr hrs

theorem inv_disconnectCleanup {st : ServerState} (hInv : Inv st) (ws : Conn) :
    Inv (disconnectCleanup st ws).1 := by
  obtain ⟨D, hD⟩ := Option.isSome_iff_exists.mp hInv.default_exists
  have hlk := cleanup_rooms_lookup st ws
  refine ⟨?_, ?_, ?_, ?_, ?_⟩
  · -- default_exists
    rw [hlk "default"]
    by_cases h : "default" ∈ (dictLookup st.client_rooms ws).getD ∅ <;>
      simp [h, hD]
  · -- connected_in_default
    intro c hc
    rw [cleanup_connected] at hc
    obtain ⟨hcw, hcc⟩ := Finset.mem_erase.mp hc
    have hcD : c ∈ D := by simpa [hD] using hInv.connected_in_default c hcc
    rw [hlk "default"]
    by_cases h : "default" ∈ (dictLookup st.client_rooms ws).getD ∅ <;>
      simp [h, hD, hcD, Finset.mem_erase, hcw]
  · -- rooms_nodup
    show ((((dictLookup st.client_rooms ws).getD ∅).sort (· ≤ ·) |>.foldl
      (fun rs r => dictModify rs r (fun m => m.erase ws)) st.rooms).map Prod.fst).Nodup
    rw [foldl_erase_map_fst]
    exact hInv.rooms_nodup
  · -- members_connected
    intro c r m hm hc
    have hnw : ws ∉ m := cleanup_ws_not_member hInv ws r m hm
    have hcw : c ≠ ws := fun he => hnw (he ▸ hc)
    rw [hlk r] at hm
    rw [cleanup_connected, Finset.mem_erase]
    by_cases h : r ∈ (dictLookup st.client_rooms ws).getD ∅
    · rw [if_pos h] at hm
      obtain ⟨m0, hm0, he⟩ := Option.map_eq_some'.mp hm
      rw [← he] at hc
      exact ⟨hcw, hInv.members_connected c r m0 hm0 (Finset.mem_of_mem_erase hc)⟩
    · rw [if_neg h] at hm
      exact ⟨hcw, hInv.members_connected c r m hm hc⟩
  · -- member_tracked
    intro c r m hm hc
    have hnw : ws ∉ m := cleanup_ws_not_member hInv ws r m hm
    have hcw : c ≠ ws := fun he => hnw (he ▸ hc)
    rw [hlk r] at hm
    rw [cleanup_client_rooms]
    by_cases h : r ∈ (dictLookup st.client_rooms ws).getD ∅
    · rw [if_pos h] at hm
      obtain ⟨m0, hm0, he⟩ := Option.map_eq_some'.mp hm
      rw [← he] at hc
      obtain ⟨s, hs, hrs⟩ :=
        hInv.member_tracked c r m0 hm0 (Finset.mem_of_mem_erase hc)
      exact ⟨s, by rw [dictLookup_dictErase_ne _ hcw]; exact hs, hrs⟩
    · rw [if_neg h] at hm
      obtain ⟨s, hs, hrs⟩ := hInv.member_tracked c r m hm hc
      exact ⟨s, by rw [dictLookup_dictErase_ne _ hcw]; exact hs, hrs⟩

/-- The invariant does not mention `users`, so username updates preserve it. -/
theorem inv_users_update {st : ServerState} (hInv : Inv st) (u : List (Conn × String)) :
    Inv { st with users := u } :=
  ⟨hInv.default_exists, hInv.connected_in_default, hInv.rooms_nodup,
    hInv.members_connected, hInv.member_tracked⟩

theorem inv_createRoom {st : ServerState} (hInv : Inv st) (ws : Conn)
    (oroom : Option String) :
    Inv (handleAction st ws (Action.createRoom oroom)).1 := by
  match oroom with
  | none => simpa [handleAction] using hInv
  | some room =>
    simp only [handleAction]
    split
    case isFalse => exact hInv
    case isTrue hcond =>
      have hne : "default" ≠ room := by
        intro he
        have h0 := hInv.default_exists
        rw [he, hcond.2] at h0
        simp at h0
      refine ⟨?_, ?_, ?_, ?_, ?_⟩
      · show (dictLookup (dictSet st.rooms room ∅) "default").isSome
        rw [dictLookup_dictSet_ne _ _ hne]
        exact hInv.default_exists
      · intro c hc
        show c ∈ (dictLookup (dictSet st.rooms room ∅) "default").getD ∅
        rw [dictLookup_dictSet_ne _ _ hne]
        exact hInv.connected_in_default c hc
      · show ((dictSet st.rooms room ∅).map Prod.fst).Nodup
        rw [dictSet_map_fst_of_absent st.rooms ∅ hcond.2]
        refine List.Nodup.append hInv.rooms_nodup (List.nodup_singleton room) ?_
        intro x hx hx1
        rw [List.mem_singleton] at hx1
        subst hx1
        exact (dictLookup_eq_none_iff st.rooms x).mp hcond.2 hx
      · intro c r m hm hc
        by_cases hr : r = room
        · subst hr
          rw [show ({ st with rooms := dictSet st.rooms r ∅ } : ServerState).rooms
              = dictSet st.rooms r ∅ from rfl, dictLookup_dictSet_self] at hm
          cases hm
          simp at hc
        · rw [show ({ st with rooms := dictSet st.rooms room ∅ } : ServerState).rooms
              = dictSet st.rooms room ∅ from rfl, dictLookup_dictSet_ne _ _ hr] at hm
          exact hInv.members_connected c r m hm hc
      · intro c r m hm hc
        by_cases hr : r = room
        · subst hr
          rw [show ({ st with rooms := dictSet st.rooms r ∅ } : ServerState).rooms
              = dictSet st.rooms r ∅ from rfl, dictLookup_dictSet_self] at hm
          cases hm
          simp at hc
        · rw [show ({ st with rooms := dictSet st.rooms room ∅ } : ServerState).rooms
              = dictSet st.rooms room ∅ from rfl, dictLookup_dictSet_ne _ _ hr] at hm
          exact hInv.member_tracked c r m hm hc

theorem inv_joinRoom {st : ServerState} (hInv : Inv st) {ws : Conn}
    (hws : ws ∈ st.connected_clients) (oroom : Option String) :
    Inv (handleAction st ws (Action.joinRoom oroom)).1 := by
  match oroom with
  | none => simpa [handleAction] using hInv
  | some room =>
    match hm : dictLookup st.rooms room with
    | none => simpa [handleAction, hm] using hInv
    | some m =>
      have h1 : (handleAction st ws (Action.joinRoom (some room))).1
          = { st with
              rooms := dictModify st.rooms room (fun s => insert ws s)
              client_rooms := dictSet st.client_rooms ws
                (insert room ((dictLookup st.client_rooms ws).getD ∅)) } := by
        simp [handleAction, hm]
      rw [h1]
      refine ⟨?_, ?_, ?_, ?_, ?_⟩ <;> dsimp only
      · by_cases hr : ("default" : String) = room
        · subst hr
          rw [dictLookup_dictModify_self, hm]
          simp
        · rw [dictLookup_dictModify_ne _ _ hr]
          exact hInv.default_exists
      · intro c hc
        by_cases hr : ("default" : String) = room
        · subst hr
          rw [dictLookup_dictModify_self, hm]
          have h2 := hInv.connected_in_default c hc
          rw [hm] at h2
          simpa using Finset.mem_insert_of_mem h2
        · rw [dictLookup_dictModify_ne _ _ hr]
          exact hInv.connected_in_default c hc
      · rw [dictModify_map_fst]
        exact hInv.rooms_nodup
      · intro c r m1 hm1 hc
        by_cases hr : r = room
        · subst hr
          rw [dictLookup_dictModify_self, hm] at hm1
          cases hm1
          rcases Finset.mem_insert.mp hc with hc | hc
          · exact hc ▸ hws
          · exact hInv.members_connected c r m hm hc
        · rw [dictLookup_dictModify_ne _ _ hr] at hm1
          exact hInv.members_connected c r m1 hm1 hc
      · intro c r m1 hm1 hc
        by_cases hcw : c = ws
        · subst hcw
          refine ⟨insert room ((dictLookup st.client_rooms c).getD ∅),
            dictLookup_dictSet_self _ _ _, ?_⟩
          by_cases hr : r = room
          · simp [hr]
          · rw [dictLookup_dictModify_ne _ _ hr] at hm1
            obtain ⟨s, hs, hrs⟩ := hInv.member_tracked c r m1 hm1 hc
            rw [hs]
            exact Finset.mem_insert_of_mem hrs
        · rw [dictLookup_dictSet_ne _ _ hcw]
          by_cases hr : r = room
          · subst hr
            rw [dictLookup_dictModify_self, hm] at hm1
            cases hm1
            rcases Finset.mem_insert.mp hc with hc1 | hc1
            · exact absurd hc1 hcw
            · exact hInv.member_tracked c r m hm hc1
          · rw [dictLookup_dictModify_ne _ _ hr] at hm1
            exact hInv.member_tracked c r m1 hm1 hc

theorem inv_leaveRoom {st : ServerState} (hInv : Inv st) (ws : Conn)
    (oroom : Option String) :
    Inv (handleAction st ws (Action.leaveRoom oroom)).1 := by
  by_cases ht : truthy oroom = false
  · simpa [handleAction, ht] using hInv
  · rw [Bool.not_eq_false] at ht
    by_cases hd : optStr oroom = "default"
    · simpa [handleAction, ht, hd] using hInv
    · match hm : dictLookup st.rooms (optStr oroom) with
      | none =>
          simpa [handleAction, ht, hd, hm] using hInv
      | some m =>
          by_cases hwm : ws ∈ m
          · have h1 : (handleAction st ws (Action.leaveRoom oroom)).1
                = { st with
                    rooms := dictModify st.rooms (optStr oroom) (fun s => s.erase ws)
                    client_rooms :=
                      dictModify (dictModify st.client_rooms ws
                        (fun s => s.erase (optStr oroom))) ws
                        (fun s => insert "default" s) } := by
              simp [handleAction, ht, hd, hm, hwm]
            rw [h1]
            have hd1 : ("default" : String) ≠ optStr oroom := fun he => hd he.symm
            refine ⟨?_, ?_, ?_, ?_, ?_⟩ <;> dsimp only
            · rw [dictLookup_dictModify_ne _ _ hd1]
              exact hInv.default_exists
            · intro c hc
              rw [dictLookup_dictModify_ne _ _ hd1]
              exact hInv.connected_in_default c hc
            · rw [dictModify_map_fst]
              exact hInv.rooms_nodup
            · intro c r m1 hm1 hc
              by_cases hr : r = optStr oroom
              · subst hr
                rw [dictLookup_dictModify_self, hm] at hm1
                cases hm1
                exact hInv.members_connected c _ m hm (Finset.mem_of_mem_erase hc)
              · rw [dictLookup_dictModify_ne _ _ hr] at hm1
                exact hInv.members_connected c r m1 hm1 hc
            · intro c r m1 hm1 hc
              by_cases hcw : c = ws
              · subst hcw
                by_cases hr : r = optStr oroom
                · subst hr
                  rw [dictLookup_dictModify_self, hm] at hm1
                  cases hm1
                  exact absurd rfl (Finset.mem_erase.mp hc).1
                · rw [dictLookup_dictModify_ne _ _ hr] at hm1
                  obtain ⟨s, hs, hrs⟩ := hInv.member_tracked c r m1 hm1 hc
                  refine ⟨insert "default" (s.erase (optStr oroom)), ?_, ?_⟩
                  · rw [dictLookup_dictModify_self, dictLookup_dictModify_self, hs]
                    rfl
                  · exact Finset.mem_insert_of_mem (Finset.mem_erase.mpr ⟨hr, hrs⟩)
              · rw [dictLookup_dictModify_ne _ _ hcw, dictLookup_dictModify_ne _ _ hcw]
                by_cases hr : r = optStr oroom
                · subst hr
                  rw [dictLookup_dictModify_self, hm] at hm1
                  cases hm1
                  exact hInv.member_tracked c _ m hm (Finset.mem_of_mem_erase hc)
                · rw [dictLookup_dictModify_ne _ _ hr] at hm1
                  exact hInv.member_tracked c r m1 hm1 hc
          · simpa [handleAction, ht, hd, hm, hwm] using hInv

/-- The state after a successful `deleteRoom`: every member is migrated into
`"default"`, memberships are re-tracked, and the room is removed from the
directory. -/
theorem deleteRoom_state (st : ServerState) (ws : Conn) {room : String}
    {mem : Finset Conn} (hm : dictLookup st.rooms room = some mem)
    (hd : room ≠ "default") (hne : room.isEmpty = false) :
    (handleAction st ws (Action.deleteRoom (some room))).1
      = { st with
          rooms := dictErase
            ((mem.sort (· ≤ ·)).foldl
              (fun rs c => dictModify rs "default" (fun m => insert c m)) st.rooms)
            room
          client_rooms :=
            (mem.sort (· ≤ ·)).foldl
              (fun cr c =>
                dictModify (dictModify cr c (fun r => r.erase room)) c
                  (fun r => insert "default" r)) st.client_rooms } := by
  simp only [handleAction, Option.some.injEq, hd, if_false, hm, hne,
    Bool.false_eq_true]
  rw [migrate_fold_connected, migrate_fold_users, migrate_fold_rooms,
    migrate_fold_client_rooms]

theorem inv_deleteRoom {st : ServerState} (hInv : Inv st) (ws : Conn)
    (oroom : Option String) :
    Inv (handleAction st ws (Action.deleteRoom oroom)).1 := by
  by_cases hdef : oroom = some "default"
  · simpa [handleAction, hdef] using hInv
  · match oroom with
    | none => simpa [handleAction] using hInv
    | some room =>
      have hd : room ≠ "default" := fun he => hdef (by rw [he])
      match hm : dictLookup st.rooms room with
      | none =>
          simpa [handleAction, Option.some.injEq, hd, hm] using hInv
      | some mem =>
          by_cases hne : room.isEmpty
          · simpa [handleAction, Option.some.injEq, hd, hm, hne] using hInv
          · rw [deleteRoom_state st ws hm hd (Bool.not_eq_true _ ▸ hne)]
            obtain ⟨D, hD⟩ := Option.isSome_iff_exists.mp hInv.default_exists
            have hnd : (mem.sort (· ≤ ·)).Nodup := Finset.sort_nodup _ _
            have hd1 : ("default" : String) ≠ room := Ne.symm hd
            have hlkD : dictLookup
                (dictErase ((mem.sort (· ≤ ·)).foldl
                  (fun rs c => dictModify rs "default" (fun m => insert c m)) st.rooms)
                  room) "default"
                = some ((mem.sort (· ≤ ·)).foldl (fun acc c => insert c acc) D) := by
              rw [dictLookup_dictErase_ne _ hd1, dictLookup_foldl_insert, hD]
              rfl
            refine ⟨?_, ?_, ?_, ?_, ?_⟩ <;> dsimp only
            · rw [hlkD]
              rfl
            · intro c hc
              rw [hlkD]
              have h2 := hInv.connected_in_default c hc
              rw [hD] at h2
              simp only [Option.getD_some]
              exact (mem_foldl_insert _ _ _).mpr (Or.inl h2)
            · have h3 := dictErase_sublist
                ((mem.sort (· ≤ ·)).foldl
                  (fun rs c => dictModify rs "default" (fun m => insert c m)) st.rooms)
                room
              have h4 := (h3.map Prod.fst).nodup ?_
              · exact h4
              · rw [foldl_insert_map_fst]
                exact hInv.rooms_nodup
            · intro c r m1 hm1 hc
              by_cases hr : r = room
              · subst hr
                rw [dictLookup_dictErase_self] at hm1
                cases hm1
              · rw [dictLookup_dictErase_ne _ hr] at hm1
                by_cases hrd : r = "default"
                · subst hrd
                  rw [dictLookup_foldl_insert, hD] at hm1
                  cases hm1
                  rcases (mem_foldl_insert _ _ _).mp hc with hc | hc
                  · exact hInv.members_connected c "default" D hD hc
                  · exact hInv.members_connected c room mem hm
                      ((Finset.mem_sort _).mp hc)
                · rw [dictLookup_foldl_insert_ne _ _ hrd] at hm1
                  exact hInv.members_connected c r m1 hm1 hc
            · intro c r m1 hm1 hc
              by_cases hr : r = room
              · subst hr
                rw [dictLookup_dictErase_self] at hm1
                cases hm1
              · rw [dictLookup_dictErase_ne _ hr] at hm1
                by_cases hcm : c ∈ mem
                · -- the member was migrated: its entry lost `room`, gained default
                  have hcm1 : c ∈ mem.sort (· ≤ ·) := (Finset.mem_sort _).mpr hcm
                  obtain ⟨s, hs, hrs⟩ := hInv.member_tracked c room mem hm hcm
                  rw [dictLookup_migrate_cr_mem _ _ _ hnd hcm1, hs]
                  refine ⟨insert "default" (s.erase room), rfl, ?_⟩
                  by_cases hrd : r = "default"
                  · subst hrd
                    exact Finset.mem_insert_self _ _
                  · rw [dictLookup_foldl_insert_ne _ _ hrd] at hm1
                    obtain ⟨s1, hs1, hrs1⟩ := hInv.member_tracked c r m1 hm1 hc
                    rw [hs] at hs1
                    cases hs1
                    exact Finset.mem_insert_of_mem (Finset.mem_erase.mpr ⟨hr, hrs1⟩)
                · have hcm1 : c ∉ mem.sort (· ≤ ·) :=
                    fun h => hcm ((Finset.mem_sort _).mp h)
                  rw [dictLookup_migrate_cr_not_mem _ _ _ hcm1]
                  by_cases hrd : r = "default"
                  · subst hrd
                    rw [dictLookup_foldl_insert, hD] at hm1
                    cases hm1
                    rcases (mem_foldl_insert _ _ _).mp hc with hc | hc
                    · exact hInv.member_tracked c "default" D hD hc
                    · exact absurd ((Finset.mem_sort _).mp hc) hcm
                  · rw [dictLookup_foldl_insert_ne _ _ hrd] at hm1
                    exact hInv.member_tracked c r m1 hm1 hc

theorem inv_handleAction {st : ServerState} (hInv : Inv st) {ws : Conn}
    (hws : ws ∈ st.connected_clients) (a : Action) :
    Inv (handleAction st ws a).1 := by
  match a with
  | Action.createRoom oroom => exact inv_createRoom hInv ws oroom
  | Action.joinRoom oroom => exact inv_joinRoom hInv hws oroom
  | Action.leaveRoom oroom => exact inv_leaveRoom hInv ws oroom
  | Action.deleteRoom oroom => exact inv_deleteRoom hInv ws oroom
  | Action.sendMessage omsg oroom =>
      -- `sendMessage` never mutates the state
      by_cases hb : truthy omsg = false ∨ truthy oroom = false
      · simpa [handleAction, hb] using hInv
      · match hm : dictLookup st.rooms (optStr oroom) with
        | none => simpa [handleAction, hb, hm] using hInv
        | some mem => simpa [handleAction, hb, hm] using hInv
  | Action.identify username =>
      by_cases hu : username.isEmpty
      · simpa [handleAction, hu] using hInv
      · have h1 : (handleAction st ws (Action.identify username)).1
            = { st with users := dictSet st.users ws username } := by
          simp [handleAction, hu]
        rw [h1]
        exact inv_users_update hInv _
  | Action.rename oname =>
      by_cases hu : truthy oname
      · have h1 : (handleAction st ws (Action.rename oname)).1
            = { st with users := dictSet st.users ws (optStr oname) } := by
          simp [handleAction, hu]
        rw [h1]
        exact inv_users_update hInv _
      · simpa [handleAction, hu] using hInv
  | Action.roomsList => simpa [handleAction] using hInv
  | Action.unknown => simpa [handleAction] using hInv

/-- Every reachable server state satisfies the invariant. -/
theorem reachable_inv {st : ServerState} (h : Reachable st) : Inv st := by
  induction h with
  | init => exact inv_initState
  | connect h hws ih => exact inv_registerClient _ ih hws
  | act h hws ih => exact inv_handleAction ih hws _
  | disconnect h hws ih => exact inv_disconnectCleanup ih _

/-! ### Auxiliary facts and concrete demonstration states -/

theorem dictLookup_mem {α β : Type} [DecidableEq α] {d : List (α × β)} {k : α} {v : β}
    (h : dictLookup d k = some v) : (k, v) ∈ d := by
  induction d with
  | nil => simp [dictLookup] at h
  | cons p rest ih =>
      obtain ⟨k0, v0⟩ := p
      by_cases h0 : k0 = k
      · subst h0
        simp [dictLookup] at h
        simp [h]
      · simp [dictLookup, h0] at h
        exact List.mem_cons_of_mem _ (ih h)

/-- For a duplicate-free list of recipients, mapping a constant event over it
delivers exactly one copy to each recipient. -/
theorem count_map_pair (l : List Conn) (hnd : l.Nodup) (ev : Event) (c : Conn) :
    (l.map (fun x => (x, ev))).count (c, ev) = if c ∈ l then 1 else 0 := by
  induction l with
  | nil => simp
  | cons x l ih =>
      obtain ⟨hx, hl⟩ := List.nodup_cons.mp hnd
      by_cases hc : c = x
      · subst hc
        simp [List.count_cons, ih hl, hx]
      · simp [List.count_cons, ih hl, hc, Ne.symm hc]

/-- A concrete state: clients `0` and `1`, both members of `"default"` and of
a room `"R"`. -/
def stA : ServerState :=
  { connected_clients := {0, 1}
    rooms := [("default", {0, 1}), ("R", {0, 1})]
    client_rooms := [(0, {"default", "R"}), (1, {"default", "R"})]
    users := [(0, "alice"), (1, "bob")] }

/-- `Finset.sort` is characterised by sortedness, duplicate-freeness and
membership (used to evaluate iteration orders on concrete states, since
merge sort does not reduce in the kernel). -/
theorem sort_eq_of_sorted {α : Type} [LinearOrder α] {s : Finset α} {l : List α}
    (hnd : l.Nodup) (hsort : l.Sorted (· ≤ ·)) (hmem : ∀ a, a ∈ l ↔ a ∈ s) :
    s.sort (· ≤ ·) = l :=
  List.eq_of_perm_of_sorted
    ((List.perm_ext_iff_of_nodup (Finset.sort_nodup _ _) hnd).mpr
      (fun a => by rw [Finset.mem_sort, hmem]))
    (Finset.sort_sorted _ _) hsort

/-! ### The claims -/

/-- C1: in every reachable server state the room `"default"` exists, and
every registered connection is a member of it, whatever sequence of
createRoom/joinRoom/leaveRoom/deleteRoom/sendMessage actions was processed
between registration and disconnect cleanup. -/
theorem C1_default_room_invariant {st : ServerState} (h : Reachable st) :
    (dictLookup st.rooms "default").isSome ∧
      ∀ c ∈ st.connected_clients, c ∈ (dictLookup st.rooms "default").getD ∅ :=
  ⟨(reachable_inv h).default_exists, (reachable_inv h).connected_in_default⟩

theorem C1_default_room_invariant_witness :
    (dictLookup (registerClient initState 0 "alice").1.rooms "default").isSome ∧
      ∀ c ∈ (registerClient initState 0 "alice").1.connected_clients,
        c ∈ (dictLookup (registerClient initState 0 "alice").1.rooms "default").getD ∅ :=
  C1_default_room_invariant
    (Reachable.connect Reachable.init (by simp [initState]))

/-- C2: joining an existing room `x` adds the connection to the member set of
`x`, leaves every other room untouched (so the connection keeps all previous
memberships), is idempotent when already a member (the set is unchanged, no
duplicate), and emits a `joined` event plus the occupancy broadcast — never
an error. -/
theorem C2_joinRoom_frame {st : ServerState} (c : Conn) {x : String}
    {m : Finset Conn} (hm : dictLookup st.rooms x = some m) :
    dictLookup (handleAction st c (Action.joinRoom (some x))).1.rooms x
        = some (insert c m) ∧
    (∀ y, y ≠ x →
      dictLookup (handleAction st c (Action.joinRoom (some x))).1.rooms y
        = dictLookup st.rooms y) ∧
    (∀ y my, dictLookup st.rooms y = some my → c ∈ my →
      ∃ my2, dictLookup (handleAction st c (Action.joinRoom (some x))).1.rooms y
          = some my2 ∧ c ∈ my2) ∧
    (c ∈ m →
      dictLookup (handleAction st c (Action.joinRoom (some x))).1.rooms x = some m) ∧
    (handleAction st c (Action.joinRoom (some x))).2
        = (c, Event.joined x)
          :: broadcastRoomsList (handleAction st c (Action.joinRoom (some x))).1 := by
  have h1 : (handleAction st c (Action.joinRoom (some x))).1
      = { st with
          rooms := dictModify st.rooms x (fun s => insert c s)
          client_rooms := dictSet st.client_rooms c
            (insert x ((dictLookup st.client_rooms c).getD ∅)) } := by
    simp [handleAction, hm]
  refine ⟨?_, ?_, ?_, ?_, ?_⟩
  · rw [h1]
    dsimp only
    rw [dictLookup_dictModify_self, hm]
    rfl
  · intro y hy
    rw [h1]
    dsimp only
    rw [dictLookup_dictModify_ne _ _ hy]
  · intro y my hmy hcy
    rw [h1]
    dsimp only
    by_cases hy : y = x
    · subst hy
      rw [dictLookup_dictModify_self, hm]
      exact ⟨insert c m, rfl, Finset.mem_insert_self c m⟩
    · rw [dictLookup_dictModify_ne _ _ hy, hmy]
      exact ⟨my, rfl, hcy⟩
  · intro hcm
    rw [h1]
    dsimp only
    rw [dictLookup_dictModify_self, hm]
    simp [Finset.insert_eq_self.mpr hcm]
  · simp [handleAction, hm]

theorem C2_joinRoom_frame_witness :
    dictLookup (handleAction stA 0 (Action.joinRoom (some "R"))).1.rooms "R"
        = some (insert 0 {0, 1}) ∧
    (∀ y, y ≠ "R" →
      dictLookup (handleAction stA 0 (Action.joinRoom (some "R"))).1.rooms y
        = dictLookup stA.rooms y) ∧
    (∀ y my, dictLookup stA.rooms y = some my → 0 ∈ my →
      ∃ my2, dictLookup (handleAction stA 0 (Action.joinRoom (some "R"))).1.rooms y
          = some my2 ∧ 0 ∈ my2) ∧
    (0 ∈ ({0, 1} : Finset Conn) →
      dictLookup (handleAction stA 0 (Action.joinRoom (some "R"))).1.rooms "R"
        = some {0, 1}) ∧
    (handleAction stA 0 (Action.joinRoom (some "R"))).2
        = (0, Event.joined "R")
          :: broadcastRoomsList (handleAction stA 0 (Action.joinRoom (some "R"))).1 :=
  C2_joinRoom_frame 0 (by decide)

/-- C5: deleting or leaving `"default"` is rejected with a specific
non-fatal error event sent to the requester only, and the whole state is
left exactly as it was. -/
theorem C5_default_protected (st : ServerState) (ws : Conn) :
    handleAction st ws (Action.deleteRoom (some "default"))
        = (st, [(ws, Event.error "cannot_delete_default"
            "Cannot delete the default room.")]) ∧
    handleAction st ws (Action.leaveRoom (some "default"))
        = (st, [(ws, Event.error "cannot_leave_default"
            "Cannot leave the default room.")]) ∧
    (handleFrame st ws (Frame.parsed (Action.deleteRoom (some "default")))).2.2
        = true ∧
    (handleFrame st ws (Frame.parsed (Action.leaveRoom (some "default")))).2.2
        = true := by
  refine ⟨?_, ?_, rfl, rfl⟩
  · simp [handleAction]
  · simp [handleAction, truthy, optStr,
      show "default".isEmpty = false by decide]

/-- `sendMessage` with a non-empty message to an existing room: the state is
untouched and one `message` event per current member is emitted (lines
246-267). -/
theorem sendMessage_spec {st : ServerState} (sender : Conn) {room msg : String}
    {m : Finset Conn} (hm : dictLookup st.rooms room = some m)
    (hmsg : msg.isEmpty = false) (hroom : room.isEmpty = false) :
    (handleAction st sender (Action.sendMessage (some msg) (some room))).1 = st ∧
    (handleAction st sender (Action.sendMessage (some msg) (some room))).2
      = (m.sort (· ≤ ·)).map (fun c =>
          (c, Event.message ((dictLookup st.users sender).getD "Unknown") room msg)) := by
  constructor <;> simp [handleAction, truthy, optStr, hmsg, hroom, hm]

/-- C3: a `sendMessage` with a non-empty message from a member of an existing
room leaves the registry and directory untouched, and delivers exactly one
`message` event to each current member (the sender included), carrying the
sender's current username, the room name, and the text. -/
theorem C3_sendMessage_delivery {st : ServerState} {sender : Conn}
    {room msg uname : String} {m : Finset Conn}
    (hm : dictLookup st.rooms room = some m) (hsender : sender ∈ m)
    (hu : dictLookup st.users sender = some uname)
    (hmsg : msg.isEmpty = false) (hroom : room.isEmpty = false) :
    (handleAction st sender (Action.sendMessage (some msg) (some room))).1 = st ∧
    (∀ p ∈ (handleAction st sender (Action.sendMessage (some msg) (some room))).2,
      p.2 = Event.message uname room msg) ∧
    (∀ c : Conn,
      (handleAction st sender (Action.sendMessage (some msg) (some room))).2.count
          (c, Event.message uname room msg)
        = if c ∈ m then 1 else 0) ∧
    (handleAction st sender (Action.sendMessage (some msg) (some room))).2.count
        (sender, Event.message uname room msg) = 1 := by
  obtain ⟨hst, hev⟩ := sendMessage_spec sender hm hmsg hroom
  rw [hu] at hev
  simp only [Option.getD_some] at hev
  have hcnt : ∀ c : Conn,
      (handleAction st sender (Action.sendMessage (some msg) (some room))).2.count
          (c, Event.message uname room msg)
        = if c ∈ m then 1 else 0 := by
    intro c
    rw [hev, count_map_pair _ (Finset.sort_nodup _ _)]
    simp [Finset.mem_sort]
  refine ⟨hst, ?_, hcnt, by rw [hcnt sender, if_pos hsender]⟩
  intro p hp
  rw [hev] at hp
  obtain ⟨c, hc, he⟩ := List.mem_map.mp hp
  rw [← he]

theorem C3_sendMessage_delivery_witness :
    (handleAction stA 0 (Action.sendMessage (some "hi") (some "R"))).1 = stA ∧
    (∀ p ∈ (handleAction stA 0 (Action.sendMessage (some "hi") (some "R"))).2,
      p.2 = Event.message "alice" "R" "hi") ∧
    (∀ c : Conn,
      (handleAction stA 0 (Action.sendMessage (some "hi") (some "R"))).2.count
          (c, Event.message "alice" "R" "hi")
        = if c ∈ ({0, 1} : Finset Conn) then 1 else 0) ∧
    (handleAction stA 0 (Action.sendMessage (some "hi") (some "R"))).2.count
        (0, Event.message "alice" "R" "hi") = 1 :=
  C3_sendMessage_delivery (by decide) (by decide) (by decide) (by decide) (by decide)

/-- C10: a `sendMessage` with a non-empty message to an existing room from a
connection that is not a member of it is accepted without any error event:
every emitted event is a `message` event addressed to a member of the room,
each member receives exactly one copy, and the non-member sender receives
nothing. -/
theorem C10_sendMessage_nonmember {st : ServerState} {sender : Conn}
    {room msg : String} {m : Finset Conn}
    (hm : dictLookup st.rooms room = some m) (hns : sender ∉ m)
    (hmsg : msg.isEmpty = false) (hroom : room.isEmpty = false) :
    (handleAction st sender (Action.sendMessage (some msg) (some room))).1 = st ∧
    (∀ p ∈ (handleAction st sender (Action.sendMessage (some msg) (some room))).2,
      p.1 ∈ m ∧
      p.2 = Event.message ((dictLookup st.users sender).getD "Unknown") room msg ∧
      p.1 ≠ sender) ∧
    (∀ c : Conn,
      (handleAction st sender (Action.sendMessage (some msg) (some room))).2.count
          (c, Event.message ((dictLookup st.users sender).getD "Unknown") room msg)
        = if c ∈ m then 1 else 0) := by
  obtain ⟨hst, hev⟩ := sendMessage_spec sender hm hmsg hroom
  refine ⟨hst, ?_, ?_⟩
  · intro p hp
    rw [hev] at hp
    obtain ⟨c, hc, he⟩ := List.mem_map.mp hp
    have hcm : c ∈ m := (Finset.mem_sort _).mp hc
    rw [← he]
    exact ⟨hcm, rfl, fun hcs => hns (hcs ▸ hcm)⟩
  · intro c
    rw [hev, count_map_pair _ (Finset.sort_nodup _ _)]
    simp [Finset.mem_sort]

theorem C10_sendMessage_nonmember_witness :
    (handleAction stA 2 (Action.sendMessage (some "yo") (some "R"))).1 = stA ∧
    (∀ p ∈ (handleAction stA 2 (Action.sendMessage (some "yo") (some "R"))).2,
      p.1 ∈ ({0, 1} : Finset Conn) ∧
      p.2 = Event.message ((dictLookup stA.users 2).getD "Unknown") "R" "yo" ∧
      p.1 ≠ 2) ∧
    (∀ c : Conn,
      (handleAction stA 2 (Action.sendMessage (some "yo") (some "R"))).2.count
          (c, Event.message ((dictLookup stA.users 2).getD "Unknown") "R" "yo")
        = if c ∈ ({0, 1} : Finset Conn) then 1 else 0) :=
  C10_sendMessage_nonmember (by decide) (by decide) (by decide) (by decide)

/-- C4: deleting an existing non-default room removes it from the directory,
migrates every member into `"default"` (so no connection is left roomless —
all connected clients are members of `"default"` afterwards), and sends each
member a `left` event for the deleted room. -/
theorem C4_deleteRoom {st : ServerState} (ws : Conn) {room : String}
    {M D : Finset Conn}
    (hm : dictLookup st.rooms room = some M) (hd : room ≠ "default")
    (hne : room.isEmpty = false)
    (hD : dictLookup st.rooms "default" = some D)
    (hconn : ∀ c ∈ st.connected_clients, c ∈ D) :
    dictLookup (handleAction st ws (Action.deleteRoom (some room))).1.rooms room
        = none ∧
    (∃ D2, dictLookup (handleAction st ws
          (Action.deleteRoom (some room))).1.rooms "default" = some D2 ∧
      (∀ c ∈ M, c ∈ D2) ∧ ∀ c ∈ st.connected_clients, c ∈ D2) ∧
    (∀ c ∈ M, (c, Event.left room)
        ∈ (handleAction st ws (Action.deleteRoom (some room))).2) := by
  refine ⟨?_, ?_, ?_⟩
  · rw [deleteRoom_state st ws hm hd hne]
    dsimp only
    exact dictLookup_dictErase_self _ room
  · rw [deleteRoom_state st ws hm hd hne]
    dsimp only
    rw [dictLookup_dictErase_ne _ (Ne.symm hd), dictLookup_foldl_insert, hD]
    refine ⟨(M.sort (· ≤ ·)).foldl (fun acc c => insert c acc) D, rfl, ?_, ?_⟩
    · intro c hc
      exact (mem_foldl_insert _ _ _).mpr (Or.inr ((Finset.mem_sort _).mpr hc))
    · intro c hc
      exact (mem_foldl_insert _ _ _).mpr (Or.inl (hconn c hc))
  · intro c hc
    have hc1 : c ∈ M.sort (· ≤ ·) := (Finset.mem_sort _).mpr hc
    simp only [handleAction, Option.some.injEq, hd, if_false, hm, hne,
      Bool.false_eq_true]
    exact List.mem_append_left _ (List.mem_map.mpr ⟨c, hc1, rfl⟩)

theorem C4_deleteRoom_witness :
    dictLookup (handleAction stA 0 (Action.deleteRoom (some "R"))).1.rooms "R"
        = none ∧
    (∃ D2, dictLookup (handleAction stA 0
          (Action.deleteRoom (some "R"))).1.rooms "default" = some D2 ∧
      (∀ c ∈ ({0, 1} : Finset Conn), c ∈ D2) ∧
      ∀ c ∈ stA.connected_clients, c ∈ D2) ∧
    (∀ c ∈ ({0, 1} : Finset Conn), (c, Event.left "R")
        ∈ (handleAction stA 0 (Action.deleteRoom (some "R"))).2) :=
  C4_deleteRoom (D := {0, 1}) 0 (by decide) (by decide) (by decide) (by decide)
    (by decide)

/-- A minimal state: one client, member of `"default"` only. -/
def st6 : ServerState :=
  { connected_clients := {0}
    rooms := [("default", {0})]
    client_rooms := [(0, {"default"})]
    users := [(0, "alice")] }

/-- C6 counterexample: after the disconnect cleanup of `server_test.py` the
client is fully unregistered (gone from `connected_clients`), yet its
`users` entry is still present — the cleanup never removes the username
mapping, contradicting the claim. -/
theorem C6_username_retained_counterexample :
    (disconnectCleanup st6 0).1.connected_clients = ∅ ∧
    dictLookup (disconnectCleanup st6 0).1.users 0 = some "alice" := by
  decide

/-- C6 as amended: the cleanup leaves the client absent from every room,
removes it from `connected_clients`, and the occupancy of a room it was in
drops from N to N-1 — but the username mapping is retained, not removed. -/
theorem C6_cleanup_amended {st : ServerState} {ws : Conn} (hInv : Inv st)
    {R : String} {m : Finset Conn}
    (hm : dictLookup st.rooms R = some m) (hcm : ws ∈ m) :
    (∀ r mem, dictLookup (disconnectCleanup st ws).1.rooms r = some mem →
      ws ∉ mem) ∧
    (disconnectCleanup st ws).1.connected_clients
        = st.connected_clients.erase ws ∧
    (disconnectCleanup st ws).1.users = st.users ∧
    ∃ m2, dictLookup (disconnectCleanup st ws).1.rooms R = some m2 ∧
      m2.card + 1 = m.card ∧
      (R, m.card - 1) ∈ get_rooms_with_counts (disconnectCleanup st ws).1 := by
  obtain ⟨s, hs, hRs⟩ := hInv.member_tracked ws R m hm hcm
  have hlk : dictLookup (disconnectCleanup st ws).1.rooms R = some (m.erase ws) := by
    rw [cleanup_rooms_lookup, hs]
    simp only [Option.getD_some, hRs, if_true, hm]
    rfl
  refine ⟨cleanup_ws_not_member hInv ws, cleanup_connected st ws,
    cleanup_users st ws, m.erase ws, hlk, Finset.card_erase_add_one hcm, ?_⟩
  exact List.mem_map.mpr ⟨(R, m.erase ws), dictLookup_mem hlk,
    by simp [Finset.card_erase_of_mem hcm]⟩

/-- A reachable state: clients `0` and `1` registered, room `"R"` created and
joined by both. -/
def C6state : ServerState :=
  (handleAction (handleAction (handleAction
    (registerClient (registerClient initState 0 "alice").1 1 "bob").1
    0 (Action.createRoom (some "R"))).1
    0 (Action.joinRoom (some "R"))).1
    1 (Action.joinRoom (some "R"))).1

theorem C6state_reachable : Reachable C6state :=
  Reachable.act (Reachable.act (Reachable.act
    (Reachable.connect (Reachable.connect Reachable.init (by decide)) (by decide))
    (by decide)) (by decide)) (by decide)

theorem C6_cleanup_amended_witness :
    (∀ r mem, dictLookup (disconnectCleanup C6state 0).1.rooms r = some mem →
      0 ∉ mem) ∧
    (disconnectCleanup C6state 0).1.connected_clients
        = C6state.connected_clients.erase 0 ∧
    (disconnectCleanup C6state 0).1.users = C6state.users ∧
    ∃ m2, dictLookup (disconnectCleanup C6state 0).1.rooms "R" = some m2 ∧
      m2.card + 1 = ({1, 0} : Finset Conn).card ∧
      ("R", ({1, 0} : Finset Conn).card - 1)
        ∈ get_rooms_with_counts (disconnectCleanup C6state 0).1 :=
  C6_cleanup_amended (reachable_inv C6state_reachable) (by rfl) (by decide)

/-- C7: `createRoom` is idempotent on the directory: after a first
`createRoom(x)` exactly one room named `x` exists; a second `createRoom(x)`
(from any connection) changes nothing and emits nothing; the occupancy
broadcast of the first call is emitted exactly when the room was newly
created. -/
theorem C7_createRoom_idempotent {st : ServerState} (ws ws2 : Conn) {x : String}
    (hx : x.isEmpty = false) (hnd : (st.rooms.map Prod.fst).Nodup) :
    ((handleAction st ws (Action.createRoom (some x))).1.rooms.map
        Prod.fst).count x = 1 ∧
    handleAction (handleAction st ws (Action.createRoom (some x))).1 ws2
        (Action.createRoom (some x))
      = ((handleAction st ws (Action.createRoom (some x))).1, []) ∧
    (handleAction st ws (Action.createRoom (some x))).2
      = (if dictLookup st.rooms x = none
         then broadcastRoomsList (handleAction st ws (Action.createRoom (some x))).1
         else []) := by
  match h : dictLookup st.rooms x with
  | none =>
    have h1 : (handleAction st ws (Action.createRoom (some x))).1
        = { st with rooms := dictSet st.rooms x ∅ } := by
      simp [handleAction, hx, h]
    have h2 : dictLookup (dictSet st.rooms x ∅) x = some ∅ :=
      dictLookup_dictSet_self _ _ _
    refine ⟨?_, ?_, ?_⟩
    · rw [h1]
      dsimp only
      rw [dictSet_map_fst_of_absent st.rooms ∅ h, List.count_append]
      rw [List.count_eq_zero.mpr ((dictLookup_eq_none_iff _ _).mp h)]
      simp
    · rw [h1]
      simp [handleAction, h2]
    · simp [handleAction, hx, h]
  | some mset =>
    have h1 : handleAction st ws (Action.createRoom (some x)) = (st, []) := by
      simp [handleAction, h]
    have hmem : x ∈ st.rooms.map Prod.fst := by
      by_contra hc
      rw [← dictLookup_eq_none_iff] at hc
      rw [hc] at h
      cases h
    refine ⟨?_, ?_, ?_⟩
    · rw [h1]
      exact List.count_eq_one_of_mem hnd hmem
    · rw [h1]
      exact h1
    · simp [h1]

theorem C7_createRoom_idempotent_witness :
    ((handleAction stA 0 (Action.createRoom (some "S"))).1.rooms.map
        Prod.fst).count "S" = 1 ∧
    handleAction (handleAction stA 0 (Action.createRoom (some "S"))).1 1
        (Action.createRoom (some "S"))
      = ((handleAction stA 0 (Action.createRoom (some "S"))).1, []) ∧
    (handleAction stA 0 (Action.createRoom (some "S"))).2
      = (if dictLookup stA.rooms "S" = none
         then broadcastRoomsList (handleAction stA 0 (Action.createRoom (some "S"))).1
         else []) :=
  C7_createRoom_idempotent 0 1 (by decide) (by decide)

/-- Two clients, one room: the scene for the malformed-frame counterexample. -/
def st8 : ServerState :=
  { connected_clients := {0, 1}
    rooms := [("default", {0, 1})]
    client_rooms := [(0, {"default"}), (1, {"default"})]
    users := [(0, "a"), (1, "b")] }

/-- C8 counterexample: a non-parseable frame from client `0` produces NO
`invalid_json` error event (the only events are the cleanup occupancy
broadcast) and the dispatch loop of the offending connection terminates
(the continuation flag is `false`), because `json.loads` at line 156 is
unguarded and the exception ends the `async for` loop. -/
theorem C8_invalid_json_counterexample :
    (handleFrame st8 0 Frame.malformed).2.2 = false ∧
    (handleFrame st8 0 Frame.malformed).2.1
      = [(0, Event.roomsList [("default", 1)]),
         (1, Event.roomsList [("default", 1)])] := by
  have hs01 : Finset.sort (· ≤ ·) ({0, 1} : Finset Conn) = [0, 1] :=
    sort_eq_of_sorted (by decide) (by decide) (by intro a; simp)
  refine ⟨rfl, ?_⟩
  show (disconnectCleanup st8 0).2 = _
  simp only [disconnectCleanup,
    show (dictLookup st8.client_rooms 0).getD ∅ = {"default"} from rfl,
    Finset.sort_singleton, List.foldl_cons, List.foldl_nil]
  rw [show dictModify st8.rooms "default" (fun m => m.erase 0)
      = [("default", ({0, 1} : Finset Conn).erase 0)] from rfl]
  simp only [broadcastRoomsList, connectedList, get_rooms_with_counts]
  rw [show ({ st8 with
        rooms := [("default", ({0, 1} : Finset Conn).erase 0)]
        client_rooms := dictErase st8.client_rooms 0 }
      : ServerState).connected_clients = ({0, 1} : Finset Conn) from rfl]
  rw [hs01]
  simp [show (({0, 1} : Finset Conn).erase 0).card = 1 by rfl]

/-- C8 as amended: a malformed frame yields no error event at all; instead
the offending session terminates and its disconnect cleanup runs — the
client is removed from `connected_clients` and from every room, every
emitted event is an occupancy broadcast, and all other connections stay
registered with their memberships intact. -/
theorem C8_malformed_frame_amended {st : ServerState} {ws : Conn}
    (hInv : Inv st) (_hws : ws ∈ st.connected_clients) :
    (handleFrame st ws Frame.malformed).2.2 = false ∧
    (∀ p ∈ (handleFrame st ws Frame.malformed).2.1,
      ∃ counts, p.2 = Event.roomsList counts) ∧
    ws ∉ (handleFrame st ws Frame.malformed).1.connected_clients ∧
    (∀ r mem,
      dictLookup (handleFrame st ws Frame.malformed).1.rooms r = some mem →
        ws ∉ mem) ∧
    (∀ c ∈ st.connected_clients, c ≠ ws →
      c ∈ (handleFrame st ws Frame.malformed).1.connected_clients) ∧
    (∀ r mem, dictLookup st.rooms r = some mem →
      ∃ mem2,
        dictLookup (handleFrame st ws Frame.malformed).1.rooms r = some mem2 ∧
        ∀ c, c ≠ ws → (c ∈ mem2 ↔ c ∈ mem)) := by
  have hfr : (handleFrame st ws Frame.malformed)
      = ((disconnectCleanup st ws).1, (disconnectCleanup st ws).2, false) := rfl
  refine ⟨rfl, ?_, ?_, ?_, ?_, ?_⟩
  · intro p hp
    rw [hfr] at hp
    obtain ⟨c, hc, he⟩ := List.mem_map.mp hp
    exact ⟨_, by rw [← he]⟩
  · rw [hfr]
    dsimp only
    rw [cleanup_connected]
    exact Finset.not_mem_erase ws _
  · intro r mem hmem
    exact cleanup_ws_not_member hInv ws r mem hmem
  · intro c hc hcw
    rw [hfr]
    dsimp only
    rw [cleanup_connected]
    exact Finset.mem_erase.mpr ⟨hcw, hc⟩
  · intro r mem hmem
    rw [hfr]
    dsimp only
    rw [cleanup_rooms_lookup, hmem]
    by_cases hr : r ∈ (dictLookup st.client_rooms ws).getD ∅
    · rw [if_pos hr]
      exact ⟨mem.erase ws, rfl, fun c hcw => by simp [Finset.mem_erase, hcw]⟩
    · rw [if_neg hr]
      exact ⟨mem, rfl, fun c hcw => Iff.rfl⟩

/-- A reachable state with two registered clients. -/
def C8state : ServerState :=
  (registerClient (registerClient initState 0 "a").1 1 "b").1

theorem C8state_reachable : Reachable C8state :=
  Reachable.connect (Reachable.connect Reachable.init (by decide)) (by decide)

theorem C8_malformed_frame_amended_witness :
    (handleFrame C8state 0 Frame.malformed).2.2 = false ∧
    (∀ p ∈ (handleFrame C8state 0 Frame.malformed).2.1,
      ∃ counts, p.2 = Event.roomsList counts) ∧
    0 ∉ (handleFrame C8state 0 Frame.malformed).1.connected_clients ∧
    (∀ r mem,
      dictLookup (handleFrame C8state 0 Frame.malformed).1.rooms r = some mem →
        0 ∉ mem) ∧
    (∀ c ∈ C8state.connected_clients, c ≠ 0 →
      c ∈ (handleFrame C8state 0 Frame.malformed).1.connected_clients) ∧
    (∀ r mem, dictLookup C8state.rooms r = some mem →
      ∃ mem2,
        dictLookup (handleFrame C8state 0 Frame.malformed).1.rooms r = some mem2 ∧
        ∀ c, c ≠ 0 → (c ∈ mem2 ↔ c ∈ mem)) :=
  C8_malformed_frame_amended (reachable_inv C8state_reachable) (by decide)

/-- C9 counterexample: the `identify` guard is Python truthiness (`if
username`), which only rejects the empty string — a whitespace-only username
such as `" "` is truthy and silently overwrites the stored username,
contradicting the claim that blank names leave it unchanged. -/
theorem C9_blank_username_counterexample :
    dictLookup st6.users 0 = some "alice" ∧
    dictLookup (handleAction st6 0 (Action.identify " ")).1.users 0 = some " " ∧
    (handleAction st6 0 (Action.identify " ")).2 = [] := by
  decide

/-- C9 as amended: an `identify` or `rename` whose supplied username is the
EMPTY string (or an absent `newUsername`) is a silent no-op with no error
event; any non-empty username — including whitespace-only ones — overwrites
the stored username unconditionally, with no uniqueness constraint. -/
theorem C9_username_update_amended (st : ServerState) (ws : Conn) (u : String) :
    handleAction st ws (Action.identify "") = (st, []) ∧
    handleAction st ws (Action.rename (some "")) = (st, []) ∧
    handleAction st ws (Action.rename none) = (st, []) ∧
    (u.isEmpty = false →
      handleAction st ws (Action.identify u)
          = ({ st with users := dictSet st.users ws u }, []) ∧
      handleAction st ws (Action.rename (some u))
          = ({ st with users := dictSet st.users ws u }, [])) := by
  refine ⟨?_, ?_, ?_, fun hu => ⟨?_, ?_⟩⟩
  · simp [handleAction, show "".isEmpty = true from rfl]
  · simp [handleAction, truthy, show "".isEmpty = true from rfl]
  · simp [handleAction, truthy]
  · simp [handleAction, hu]
  · simp [handleAction, truthy, optStr, hu]

theorem C9_username_update_amended_witness :
    handleAction st6 0 (Action.identify "") = (st6, []) ∧
    handleAction st6 0 (Action.rename (some "")) = (st6, []) ∧
    handleAction st6 0 (Action.rename none) = (st6, []) ∧
    handleAction st6 0 (Action.identify " ")
        = ({ st6 with users := dictSet st6.users 0 " " }, []) ∧
    handleAction st6 0 (Action.rename (some " "))
        = ({ st6 with users := dictSet st6.users 0 " " }, []) := by
  have h := C9_username_update_amended st6 0 " "
  exact ⟨h.1, h.2.1, h.2.2.1, (h.2.2.2 (by decide)).1, (h.2.2.2 (by decide)).2⟩

end ServerChat